import Mathlib

/-!
Verification of the relay-template commit gatekeeper pipeline.

Shallow embedding of the server hooks of this repository:
the glob-based path whitelist and reference validation policy
(validation.mjs), the sandboxed validator wrapper, the index projector
(upsertIndex) and the pre-commit / pre-receive orchestrators.
-/

/-- A changed file reported by the changeset extractor: a one-letter git
status (A, M, D, ...) and a path. -/
structure ChangeEntry where
  status : Char
  path : String
deriving DecidableEq, Repr

/-- Verdict of a validation run: ok flag plus optional message. -/
structure Verdict where
  ok : Bool
  message : Option String := none
deriving DecidableEq, Repr

/-- Boolean list-leading test: the first list read in order is an initial
run of the second.  Used to embed the JS startsWith and endsWith string
tests on character lists. -/
def listLeads : List Char → List Char → Bool
  | [], _ => true
  | _ :: _, [] => false
  | a :: as, b :: bs => a == b && listLeads as bs

/-- Embedding of JS String.startsWith. -/
def strStartsWith (s pre : String) : Bool :=
  listLeads pre.toList s.toList

/-- Embedding of JS String.endsWith. -/
def strEndsWith (s suf : String) : Bool :=
  listLeads suf.toList.reverse s.toList.reverse

/-- The final path segment: the part after the last slash, or the whole
path when there is no slash. -/
def lastSegment (p : String) : String :=
  String.mk ((p.toList.reverse.takeWhile (fun c => c != '/')).reverse)

/-- JS whitespace class used by String.prototype.trim. -/
def isJsSpace (c : Char) : Bool :=
  c == ' ' || c == '\t' || c == '\n' || c == '\r' || c == '\x0b' || c == '\x0c' ||
  c == '\u00A0' || c == '\u1680' || ('\u2000' ≤ c && c ≤ '\u200A') ||
  c == '\u2028' || c == '\u2029' || c == '\u202F' || c == '\u205F' ||
  c == '\u3000' || c == '\uFEFF'

/-- Embedding of JS String.prototype.trim. -/
def jsTrim (s : String) : String :=
  String.mk (((s.toList.dropWhile isJsSpace).reverse.dropWhile isJsSpace).reverse)

/-- Compiled token of the regex produced by globMatch in validation.mjs:
a literal character, the two-star wildcard (compiled to the regex dot-star,
any characters but line terminators) or the one-star wildcard (compiled to
a negated character class excluding the slash). -/
inductive Tok where
  | lit (c : Char)
  | anyStar
  | nonSlashStar
deriving DecidableEq, Repr

/-- Tokenisation of a glob pattern, mirroring the regex-source rewriting in
validation.mjs globMatch: specials are escaped (hence stay literal), a
backslash becomes a slash, a two-star run becomes dot-star and a remaining
star becomes the non-slash class. -/
def globTokens : List Char → List Tok
  | [] => []
  | '*' :: '*' :: rest => Tok.anyStar :: globTokens rest
  | '*' :: rest => Tok.nonSlashStar :: globTokens rest
  | '\\' :: rest => Tok.lit '/' :: globTokens rest
  | c :: rest => Tok.lit c :: globTokens rest

/-- JS regex line terminators, which the dot of a regex does not match. -/
def isLineTerm (c : Char) : Bool :=
  c == '\n' || c == '\r' || c == '\u2028' || c == '\u2029'

/-- The suffixes a star wildcard can leave behind: the whole input, plus
every suffix reachable by consuming characters satisfying ok from the
front. -/
def starSuffixes (ok : Char → Bool) : List Char → List (List Char)
  | [] => [[]]
  | x :: xs => (x :: xs) :: (if ok x then starSuffixes ok xs else [])

/-- Anchored matching of a compiled glob pattern against a path, the
semantics of RegExp.test on the regex built by globMatch.  The dot-star
wildcard consumes any run of non-line-terminator characters, the one-star
wildcard any run of non-slash characters. -/
def tokMatch : List Tok → List Char → Bool
  | [], cs => cs.isEmpty
  | Tok.lit c :: ts, cs =>
      match cs with
      | [] => false
      | x :: xs => c == x && tokMatch ts xs
  | Tok.anyStar :: ts, cs =>
      (starSuffixes (fun c => !isLineTerm c) cs).any (fun s => tokMatch ts s)
  | Tok.nonSlashStar :: ts, cs =>
      (starSuffixes (fun c => c != '/') cs).any (fun s => tokMatch ts s)

/-- Embedding of globMatch from validation.mjs. -/
def globMatch (pattern path : String) : Bool :=
  tokMatch (globTokens pattern.toList) path.toList

/-- Embedding of isWhitelisted from validation.mjs. -/
def isWhitelisted (p : String) : Bool :=
  globMatch "data/**/meta.yaml" p ||
  globMatch "data/**/meta.yml" p ||
  globMatch "data/**/index.md" p ||
  globMatch ".relay/**" p ||
  globMatch "hooks/**" p ||
  globMatch ".relay.yaml" p

example : globMatch "data/**/meta.yaml" "data/2026/test-movie/meta.yaml" = true := by decide
example : globMatch "data/**/meta.yaml" "data/meta.yaml" = false := by decide
example : isWhitelisted "unauthorized.file" = false := by decide
example : isWhitelisted ".relay/validation.mjs" = true := by decide

/-- A parsed structured value, as produced by the tiny YAML/JSON parsing
layer of validation.mjs. -/
inductive JVal where
  | str (s : String)
  | num (n : Int)
  | bool (b : Bool)
  | null
  | arr (xs : List JVal)
  | obj (fs : List (String × JVal))

/-- Outcome of reading and parsing a file inside validateMetaYaml: the
blob can be absent, fail UTF-8 decoding, parse to a non-object value, or
parse to an object given by its fields. -/
inductive FileVal where
  | absent
  | notUtf8
  | nonObject
  | doc (fs : List (String × JVal))

/-- JS test on doc.title in validateMetaYaml: a string that is non-empty
after trimming. -/
def titleCheck (fs : List (String × JVal)) : Bool :=
  match fs.lookup "title" with
  | some (JVal.str s) => !(jsTrim s == "")
  | _ => false

/-- The regex of validateMetaYaml for release_date: exactly four digits,
a dash, two digits, a dash, two digits. -/
def dateMatch (s : String) : Bool :=
  match s.toList with
  | [y1, y2, y3, y4, s1, m1, m2, s2, d1, d2] =>
      y1.isDigit && y2.isDigit && y3.isDigit && y4.isDigit &&
      s1 == '-' && m1.isDigit && m2.isDigit &&
      s2 == '-' && d1.isDigit && d2.isDigit
  | _ => false

/-- JS test on doc.release_date in validateMetaYaml. -/
def dateCheck (fs : List (String × JVal)) : Bool :=
  match fs.lookup "release_date" with
  | some (JVal.str s) => dateMatch s
  | _ => false

/-- Is the value a string? -/
def isStrVal : JVal → Bool
  | JVal.str _ => true
  | _ => false

/-- JS test on doc.genre in validateMetaYaml: an array whose elements are
all strings. -/
def genreCheck (fs : List (String × JVal)) : Bool :=
  match fs.lookup "genre" with
  | some (JVal.arr xs) => xs.all isStrVal
  | _ => false

/-- Embedding of validateMetaYaml from validation.mjs.  The read, decode
and parse stages are summarised by the fileAt oracle. -/
def validateMetaYaml (fileAt : String → FileVal) (p : String) : Verdict :=
  match fileAt p with
  | FileVal.absent => { ok := false, message := some ("Cannot read " ++ p) }
  | FileVal.notUtf8 => { ok := false, message := some (p ++ " is not UTF-8") }
  | FileVal.nonObject => { ok := false, message := some (p ++ " is not valid YAML/JSON") }
  | FileVal.doc fs =>
      if !titleCheck fs then
        { ok := false, message := some (p ++ ": missing or invalid title (string)") }
      else if !dateCheck fs then
        { ok := false, message := some (p ++ ": invalid release_date (YYYY-MM-DD)") }
      else if !genreCheck fs then
        { ok := false, message := some (p ++ ": invalid genre (array of strings)") }
      else
        { ok := true }

/-- JS falsy-or on an optional message: an undefined or empty message is
replaced by the fallback. -/
def jsOr (m : Option String) (fb : String) : String :=
  match m with
  | some s => if s == "" then fb else s
  | none => fb

/-- The error-collecting loop of validate in validation.mjs: one line per
non-whitelisted path, plus the schema message for every whitelisted meta
file that fails validateMetaYaml. -/
def collectErrors (fileAt : String → FileVal) : List ChangeEntry → List String
  | [] => []
  | f :: rest =>
      let p := f.path
      if !isWhitelisted p then
        ("Path not allowed: " ++ p) :: collectErrors fileAt rest
      else if globMatch "data/**/meta.yaml" p || globMatch "data/**/meta.yml" p then
        match validateMetaYaml fileAt p with
        | { ok := true, .. } => collectErrors fileAt rest
        | { ok := false, message := m } =>
            jsOr m ("Invalid meta: " ++ p) :: collectErrors fileAt rest
      else
        collectErrors fileAt rest

/-- Embedding of validate from validation.mjs: reject with the
newline-joined error list when any error was collected. -/
def validate (fileAt : String → FileVal) (staged : List ChangeEntry) : Verdict :=
  let errors := collectErrors fileAt staged
  if errors.isEmpty then { ok := true }
  else { ok := false, message := some (String.intercalate "\n" errors) }

/-- What calling the resolved validate function yielded: a pending promise
or a value (undefined or a verdict). -/
inductive ValidateRet where
  | promise
  | value (v : Option Verdict)

/-- What evaluating the validation script yielded when it did not throw:
optionally a resolved validate entry point (whose call either throws or
returns), and optionally a pre-computed verdict object. -/
structure ScriptYield where
  validateCall : Option (Except String ValidateRet)
  precomputed : Option Verdict

/-- Embedding of runValidationSandbox (hooks/server/lib/validation-util.mjs
and the pre-receive hook).  hasCode says whether validation.mjs exists at
the new revision.  compile summarises building the vm.Script from the
program source, which happens before the try block: its throw (a syntax
error in the program) is NOT caught and propagates to the caller, hence
the Except result type.  run summarises evaluating the compiled script
inside the vm context within the try block: its Except.error covers any
throw there, including the 2000 ms timeout abort, and is converted into a
failed verdict with the fixed marker. -/
def runValidationSandbox (hasCode : Bool) (compile : Except String Unit)
    (run : Except String ScriptYield) : Except String Verdict :=
  if !hasCode then Except.ok { ok := true }
  else
    match compile with
    | Except.error ce => Except.error ce
    | Except.ok _ =>
        Except.ok
          (match run with
           | Except.error e => { ok := false, message := some ("validation.mjs error: " ++ e) }
           | Except.ok sy =>
               match sy.validateCall with
               | none =>
                   match sy.precomputed with
                   | some vr => vr
                   | none => { ok := true }
               | some (Except.error e) =>
                   { ok := false, message := some ("validation.mjs error: " ++ e) }
               | some (Except.ok ValidateRet.promise) =>
                   { ok := false
                     message := some
                       "validation.mjs error: validation.mjs returned a Promise; async not supported" }
               | some (Except.ok (ValidateRet.value v)) => v.getD { ok := true })

/-- Embedding of Node path.posix.dirname: scan from the end, skip trailing
slashes, and cut at the next slash (never the one at position zero). -/
def dirEnd (cs : List Char) : Nat → Bool → Option Nat
  | 0, _ => none
  | i + 1, matchedSlash =>
      match cs.get? (i + 1) with
      | some '/' => if !matchedSlash then some (i + 1) else dirEnd cs i matchedSlash
      | some _ => dirEnd cs i false
      | none => dirEnd cs i matchedSlash

/-- Embedding of Node path.posix.dirname. -/
def posixDirname (p : String) : String :=
  let cs := p.toList
  if cs.isEmpty then "."
  else
    let hasRoot := cs.head? == some '/'
    match dirEnd cs (cs.length - 1) true with
    | none => if hasRoot then "/" else "."
    | some e => if hasRoot && e == 1 then "//" else String.mk (cs.take e)

example : posixDirname "data/2026/test-movie/meta.yaml" = "data/2026/test-movie" := by decide
example : posixDirname "meta.yaml" = "." := by decide
example : posixDirname "/meta.yaml" = "/" := by decide

/-- The metadata-file test of upsertIndex: a plain string-suffix test for
the two spellings, with and without a leading slash (the slash-free tests
subsume the others). -/
def isMetaPath (p : String) : Bool :=
  strEndsWith p "/meta.yaml" || strEndsWith p "/meta.yml" ||
  strEndsWith p "meta.yaml" || strEndsWith p "meta.yml"

/-- An index entry as built by upsertIndex: the system fields plus the
remaining payload of the parsed document. -/
structure Item where
  branch : String
  metaDir : String
  createdAt : String
  updatedAt : String
  payload : List (String × JVal)

/-- A slot of the stored items array: a proper entry, or a hole (a sparse
slot, undefined or null) that the position map skips. -/
inductive Cell where
  | hole
  | entry (it : Item)

/-- The composite map key used by upsertIndex: branch and directory joined
by a double colon. -/
def itemKey (it : Item) : String :=
  it.branch ++ "::" ++ it.metaDir

/-- The key of a cell, when it holds an entry. -/
def cellKey : Cell → Option String
  | Cell.hole => none
  | Cell.entry it => some (itemKey it)

/-- The keys of the entries stored in an items array. -/
def keysOf (items : List Cell) : List String :=
  items.filterMap cellKey

/-- JS Map.set on the association list representing the position map:
replace in place, or append. -/
def posSet (m : List (String × Nat)) (k : String) (v : Nat) : List (String × Nat) :=
  match m with
  | [] => [(k, v)]
  | (k', v') :: rest => if k' == k then (k, v) :: rest else (k', v') :: posSet rest k v

/-- JS Map.get on the position map. -/
def posGet (m : List (String × Nat)) (k : String) : Option Nat :=
  m.lookup k

/-- The position map built at the start of upsertIndex: every entry cell
is recorded under its key with its position; holes are skipped. -/
def buildPos (items : List Cell) : List (String × Nat) :=
  (items.enum).foldl
    (fun m ic =>
      match ic.2 with
      | Cell.hole => m
      | Cell.entry it => posSet m (itemKey it) ic.1)
    []

/-- Result of reading and YAML/JSON-parsing a changed metadata file: the
value of a _created_at field of the document itself if any, and the rest
of the parsed payload. -/
structure ParsedMeta where
  createdAt : Option String
  payload : List (String × JVal)

/-- The document object built by upsertIndex for one changed metadata
file: spread of the parsed payload, system fields for branch, directory
and update time, and a creation time taken from the document when it has
one and stamped fresh otherwise. -/
def mkDoc (branch metaDir now : String) (pm : ParsedMeta) : Item :=
  { branch := branch
    metaDir := metaDir
    createdAt := pm.createdAt.getD now
    updatedAt := now
    payload := pm.payload }

/-- JS array element assignment items[i] = v: overwrite in range, append
at the length, and pad with holes beyond it. -/
def setCell (xs : List Cell) (i : Nat) (v : Cell) : List Cell :=
  if i < xs.length then xs.set i v
  else xs ++ List.replicate (i - xs.length) Cell.hole ++ [v]

/-- State threaded through the changeset loop of upsertIndex: the items
array and the position map.  The source never refreshes the position map
after a splice. -/
structure UpsertState where
  items : List Cell
  pos : List (String × Nat)

/-- One iteration of the changeset loop of upsertIndex. -/
def applyChange (branch now : String) (fileAt : String → Option ParsedMeta)
    (st : UpsertState) (ch : ChangeEntry) : UpsertState :=
  if isMetaPath ch.path then
    let metaDir := posixDirname ch.path
    let k := branch ++ "::" ++ metaDir
    if ch.status == 'D' then
      match posGet st.pos k with
      | some i => { st with items := st.items.eraseIdx i }
      | none => st
    else
      match fileAt ch.path with
      | none => st
      | some pm =>
          let doc := mkDoc branch metaDir now pm
          match posGet st.pos k with
          | some i => { st with items := setCell st.items i (Cell.entry doc) }
          | none =>
              { items := st.items ++ [Cell.entry doc]
                pos := posSet st.pos k st.items.length }
  else st

/-- The pure core of upsertIndex: process the whole changeset against a
starting items array, returning the items array that is written back. -/
def upsertFromItems (branch now : String) (fileAt : String → Option ParsedMeta)
    (items0 : List Cell) (changes : List ChangeEntry) : List Cell :=
  (changes.foldl (applyChange branch now fileAt) { items := items0, pos := buildPos items0 }).items

/-- The persisted relay_index.json as found on disk before the run. -/
inductive IndexFile where
  | absent
  | corrupt
  | wellFormed (items : Option (List Cell))

/-- The items array upsertIndex starts from: the stored array when the
file exists, parses, and has an array items field; empty otherwise. -/
def loadedCells : IndexFile → List Cell
  | IndexFile.absent => []
  | IndexFile.corrupt => []
  | IndexFile.wellFormed none => []
  | IndexFile.wellFormed (some xs) => xs

/-- Embedding of upsertIndex: load, process the changeset, and the items
array of the rewritten file. -/
def upsertIndexItems (branch now : String) (fileAt : String → Option ParsedMeta)
    (stored : IndexFile) (changes : List ChangeEntry) : List Cell :=
  upsertFromItems branch now fileAt (loadedCells stored) changes

/-- Observable effects of a hook run, in order: a call to
verifyCommitWithAllowedSigners, or a write of relay_index.json. -/
inductive Event where
  | sigCheck
  | indexWrite
deriving DecidableEq, Repr

/-- Final outcome of a hook run: normal exit, or process exit with a code
after printing a message. -/
inductive Outcome where
  | accept
  | reject (code : Nat) (msg : String)
deriving DecidableEq, Repr

/-- The hook-script test of requireSignedIfChangingHooks. -/
def hooksChanged (changes : List ChangeEntry) : Bool :=
  changes.any (fun e =>
    e.path == ".relay/pre-commit.mjs" || e.path == ".relay/pre-receive.mjs")

/-- The message printed by requireSignedIfChangingHooks before exiting. -/
def hookScriptMsg : String :=
  "Commit modifies .relay hook scripts but is not signed (git verify-commit failed)."

/-- The message printed on a failed verdict: the verdict message unless it
is missing or empty. -/
def verdictMsg (v : Verdict) : String :=
  jsOr v.message "validation failed"

/-- Embedding of requireSignedIfChangingHooks from the pre-receive hook:
when the changeset touches a hook-script path the signature is verified,
and a failure exits with code 1; otherwise nothing happens. -/
def requireSignedIfChangingHooks (changes : List ChangeEntry) (sigOk : Bool) :
    Option Outcome × List Event :=
  if hooksChanged changes then
    (if sigOk then none else some (Outcome.reject 1 hookScriptMsg), [Event.sigCheck])
  else (none, [])

/-- Embedding of main from the pre-receive hook.  sigOk abstracts the
(deterministic) result of verifyCommitWithAllowedSigners for the pushed
commit; verdict is the result of runValidationSandbox.  Returns the final
outcome and the ordered effects. -/
def preReceiveMain (changes : List ChangeEntry) (sigOk : Bool) (verdict : Verdict) :
    Outcome × List Event :=
  match requireSignedIfChangingHooks changes sigOk with
  | (some o, evs) => (o, evs)
  | (none, evs) =>
      if verdict.ok == false then
        if sigOk then
          (Outcome.accept, evs ++ [Event.sigCheck, Event.indexWrite])
        else
          (Outcome.reject 1 (verdictMsg verdict), evs ++ [Event.sigCheck])
      else
        (Outcome.accept, evs ++ [Event.indexWrite])

/-- Embedding of main from the pre-commit hook: a failed verdict exits
with code 1 and the verdict message; no signature verification and no
index write happen on any path. -/
def preCommitMain (verdict : Verdict) : Outcome × List Event :=
  if verdict.ok == false then
    (Outcome.reject 1 (verdictMsg verdict), [])
  else (Outcome.accept, [])

/-- A list leads its own append. -/
theorem listLeads_append (l r : List Char) : listLeads l (l ++ r) = true := by
  induction l with
  | nil => rfl
  | cons a as ih => simpa [listLeads] using ih

/-- A string starts with the first half of an append. -/
theorem strStartsWith_append (a b : String) : strStartsWith (a ++ b) a = true := by
  unfold strStartsWith
  have h : (a ++ b).toList = a.toList ++ b.toList := String.data_append a b
  rw [h]
  exact listLeads_append a.toList b.toList

/-- listLeads is transitive. -/
theorem listLeads_trans {a b c : List Char} (h1 : listLeads a b = true)
    (h2 : listLeads b c = true) : listLeads a c = true := by
  induction a generalizing b c with
  | nil => rfl
  | cons x xs ih =>
      cases b with
      | nil => simp [listLeads] at h1
      | cons y ys =>
          cases c with
          | nil => simp [listLeads] at h2
          | cons z zs =>
              simp [listLeads] at h1 h2 ⊢
              obtain ⟨hxy, h1'⟩ := h1
              obtain ⟨hyz, h2'⟩ := h2
              exact ⟨hxy.trans hyz, ih h1' h2'⟩

/-- The takeWhile part of a list leads the list. -/
theorem listLeads_takeWhile (q : Char → Bool) (l : List Char) :
    listLeads (l.takeWhile q) l = true := by
  induction l with
  | nil => rfl
  | cons x xs ih =>
      by_cases h : q x = true
      · simp [List.takeWhile, h, listLeads, ih]
      · simp [List.takeWhile, h, listLeads]

/-- A match of a pattern starting with a literal pins the first character
of the path. -/
theorem tokMatch_lit_head {c : Char} {ts : List Tok} {cs : List Char}
    (h : tokMatch (Tok.lit c :: ts) cs = true) :
    ∃ cs', cs = c :: cs' ∧ tokMatch ts cs' = true := by
  cases cs with
  | nil => simp [tokMatch] at h
  | cons x xs =>
      simp [tokMatch] at h
      exact ⟨xs, by rw [h.1], h.2⟩

/-- A string whose characters start with c is not empty (as a JS == ""
test). -/
theorem str_beq_empty_false {m : String} {c : Char} {ms : List Char}
    (hm : m.toList = c :: ms) : (m == "") = false := by
  rw [beq_eq_false_iff_ne]
  intro h
  subst h
  simp [String.toList] at hm

/-- A string whose first character is not P does not start with the
path-violation marker. -/
theorem strStartsWith_pna_false {m : String} {c : Char} {ms : List Char}
    (hm : m.toList = c :: ms) (hc : c ≠ 'P') :
    strStartsWith m "Path not allowed: " = false := by
  unfold strStartsWith
  rw [hm]
  have hpat : ("Path not allowed: " : String).toList = 'P' :: "ath not allowed: ".toList := rfl
  rw [hpat]
  simp [listLeads]
  intro h
  exact absurd h.symm hc

/-- Provenance of one loop iteration: any entry of the resulting items
array was already stored, or is the document built for this change. -/
theorem mem_entry_applyChange {branch now : String} {fileAt : String → Option ParsedMeta}
    {st : UpsertState} {ch : ChangeEntry} {it : Item}
    (h : Cell.entry it ∈ (applyChange branch now fileAt st ch).items) :
    Cell.entry it ∈ st.items ∨
      (isMetaPath ch.path = true ∧ ch.status ≠ 'D' ∧
        ∃ pm, fileAt ch.path = some pm ∧ it = mkDoc branch (posixDirname ch.path) now pm) := by
  unfold applyChange at h
  by_cases hm : isMetaPath ch.path = true
  · simp only [hm, if_true] at h
    by_cases hd : (ch.status == 'D') = true
    · simp only [hd, if_true] at h
      cases hp : posGet st.pos (branch ++ "::" ++ posixDirname ch.path) with
      | none => rw [hp] at h; exact Or.inl h
      | some i =>
          rw [hp] at h
          exact Or.inl ((List.eraseIdx_sublist st.items i).subset h)
    · simp only [hd, if_false] at h
      cases hf : fileAt ch.path with
      | none => rw [hf] at h; exact Or.inl h
      | some pm =>
          rw [hf] at h
          have hne : ch.status ≠ 'D' := by
            intro he
            rw [he] at hd
            simp at hd
          cases hp : posGet st.pos (branch ++ "::" ++ posixDirname ch.path) with
          | some i =>
              rw [hp] at h
              simp only [UpsertState.mk.injEq] at h
              unfold setCell at h
              by_cases hi : i < st.items.length
              · simp only [hi, if_true] at h
                rcases List.mem_or_eq_of_mem_set h with h1 | h2
                · exact Or.inl h1
                · cases h2
                  exact Or.inr ⟨hm, hne, pm, rfl, rfl⟩
              · simp only [hi, if_false] at h
                rcases List.mem_append.mp h with h1 | h2
                · rcases List.mem_append.mp h1 with h3 | h4
                  · exact Or.inl h3
                  · exact absurd (List.eq_of_mem_replicate h4) (by intro hh; cases hh)
                · rcases List.mem_singleton.mp h2 with h5
                  cases h5
                  exact Or.inr ⟨hm, hne, pm, rfl, rfl⟩
          | none =>
              rw [hp] at h
              simp only at h
              rcases List.mem_append.mp h with h1 | h2
              · exact Or.inl h1
              · rcases List.mem_singleton.mp h2 with h5
                cases h5
                exact Or.inr ⟨hm, hne, pm, rfl, rfl⟩
  · simp only [Bool.not_eq_true] at hm
    simp only [hm, Bool.false_eq_true, if_false] at h
    exact Or.inl h

/-- Provenance across the whole changeset loop. -/
theorem mem_entry_fold {branch now : String} {fileAt : String → Option ParsedMeta} :
    ∀ (changes : List ChangeEntry) (st : UpsertState) (it : Item),
      Cell.entry it ∈ (changes.foldl (applyChange branch now fileAt) st).items →
      Cell.entry it ∈ st.items ∨
        ∃ ch ∈ changes, isMetaPath ch.path = true ∧ ch.status ≠ 'D' ∧
          ∃ pm, fileAt ch.path = some pm ∧ it = mkDoc branch (posixDirname ch.path) now pm := by
  intro changes
  induction changes with
  | nil => intro st it h; exact Or.inl h
  | cons ch rest ih =>
      intro st it h
      rw [List.foldl_cons] at h
      rcases ih (applyChange branch now fileAt st ch) it h with h1 | h2
      · rcases mem_entry_applyChange h1 with h3 | h4
        · exact Or.inl h3
        · exact Or.inr ⟨ch, List.mem_cons_self ch rest, h4⟩
      · rcases h2 with ⟨c, hc, hrest⟩
        exact Or.inr ⟨c, List.mem_cons_of_mem ch hc, hrest⟩

/-- Any path matching one of the two data metadata patterns starts with
the character d. -/
theorem data_pattern_head {p : String}
    (h : globMatch "data/**/meta.yaml" p = true ∨ globMatch "data/**/meta.yml" p = true) :
    ∃ cs, p.toList = 'd' :: cs := by
  rcases h with h | h
  · unfold globMatch at h
    have he : globTokens "data/**/meta.yaml".toList
        = Tok.lit 'd' :: globTokens "ata/**/meta.yaml".toList := rfl
    rw [he] at h
    obtain ⟨cs, hcs, _⟩ := tokMatch_lit_head h
    exact ⟨cs, hcs⟩
  · unfold globMatch at h
    have he : globTokens "data/**/meta.yml".toList
        = Tok.lit 'd' :: globTokens "ata/**/meta.yml".toList := rfl
    rw [he] at h
    obtain ⟨cs, hcs, _⟩ := tokMatch_lit_head h
    exact ⟨cs, hcs⟩

/-- Appending to a path starting with d keeps the head character. -/
theorem msg_p_head {p : String} {cs : List Char} (hcs : p.toList = 'd' :: cs)
    (suffix : String) : (p ++ suffix).toList = 'd' :: (cs ++ suffix.toList) := by
  show (p ++ suffix).data = 'd' :: (cs ++ suffix.data)
  rw [String.data_append, show p.data = 'd' :: cs from hcs]
  rfl

/-- A defined message whose first character is not P survives the falsy-or
and does not start with the path-violation marker. -/
theorem jsOr_not_pna {s : String} {c : Char} {ms : List Char}
    (hs : s.toList = c :: ms) (hc : c ≠ 'P') (fb : String) :
    strStartsWith (jsOr (some s) fb) "Path not allowed: " = false := by
  unfold jsOr
  simp only [str_beq_empty_false hs, Bool.false_eq_true, if_false]
  exact strStartsWith_pna_false hs hc

/-- The message pushed for a whitelisted metadata file that fails
validateMetaYaml never starts with the path-violation marker. -/
theorem metaMsg_not_pna (fileAt : String → FileVal) (p : String) (m : Option String)
    (hdp : globMatch "data/**/meta.yaml" p = true ∨ globMatch "data/**/meta.yml" p = true)
    (hm : validateMetaYaml fileAt p = { ok := false, message := m }) :
    strStartsWith (jsOr m ("Invalid meta: " ++ p)) "Path not allowed: " = false := by
  obtain ⟨cs, hcs⟩ := data_pattern_head hdp
  unfold validateMetaYaml at hm
  cases hf : fileAt p <;> rw [hf] at hm
  case absent =>
    have hmm : m = some ("Cannot read " ++ p) := by
      have := congrArg Verdict.message hm
      simpa using this.symm
    subst hmm
    have hlist : ("Cannot read " ++ p).toList = 'C' :: ("annot read ".toList ++ p.toList) := by
      show ("Cannot read " ++ p).data = 'C' :: ("annot read ".data ++ p.data)
      rw [String.data_append]
      rfl
    exact jsOr_not_pna hlist (by decide) _
  case notUtf8 =>
    have hmm : m = some (p ++ " is not UTF-8") := by
      have := congrArg Verdict.message hm
      simpa using this.symm
    subst hmm
    exact jsOr_not_pna (msg_p_head hcs _) (by decide) _
  case nonObject =>
    have hmm : m = some (p ++ " is not valid YAML/JSON") := by
      have := congrArg Verdict.message hm
      simpa using this.symm
    subst hmm
    exact jsOr_not_pna (msg_p_head hcs _) (by decide) _
  case doc fs =>
    have hm2 : (if (!titleCheck fs) = true then
          ({ ok := false, message := some (p ++ ": missing or invalid title (string)") } : Verdict)
        else if (!dateCheck fs) = true then
          { ok := false, message := some (p ++ ": invalid release_date (YYYY-MM-DD)") }
        else if (!genreCheck fs) = true then
          { ok := false, message := some (p ++ ": invalid genre (array of strings)") }
        else { ok := true, message := none }) = { ok := false, message := m } := hm
    clear hm
    by_cases ht : titleCheck fs = true
    · rw [ht] at hm2
      by_cases hd : dateCheck fs = true
      · rw [hd] at hm2
        by_cases hg : genreCheck fs = true
        · rw [hg] at hm2
          simp at hm2
        · have hg' : genreCheck fs = false := by simpa using hg
          rw [hg'] at hm2
          simp only [Bool.not_true, Bool.not_false, Bool.false_eq_true, if_false, if_true] at hm2
          have hmm : m = some (p ++ ": invalid genre (array of strings)") := by
            have := congrArg Verdict.message hm2
            simpa using this.symm
          subst hmm
          exact jsOr_not_pna (msg_p_head hcs _) (by decide) _
      · have hd' : dateCheck fs = false := by simpa using hd
        rw [hd'] at hm2
        simp only [Bool.not_true, Bool.not_false, Bool.false_eq_true, if_false, if_true] at hm2
        have hmm : m = some (p ++ ": invalid release_date (YYYY-MM-DD)") := by
          have := congrArg Verdict.message hm2
          simpa using this.symm
        subst hmm
        exact jsOr_not_pna (msg_p_head hcs _) (by decide) _
    · have ht' : titleCheck fs = false := by simpa using ht
      rw [ht'] at hm2
      simp only [Bool.not_false, if_true] at hm2
      have hmm : m = some (p ++ ": missing or invalid title (string)") := by
        have := congrArg Verdict.message hm2
        simpa using this.symm
      subst hmm
      exact jsOr_not_pna (msg_p_head hcs _) (by decide) _

/-- The path-violation lines of the collected error list are exactly the
lines for the non-whitelisted staged paths, in order. -/
theorem collectErrors_filter (fileAt : String → FileVal) :
    ∀ staged : List ChangeEntry,
      (collectErrors fileAt staged).filter (fun l => strStartsWith l "Path not allowed: ")
        = (staged.filter (fun f => !isWhitelisted f.path)).map
            (fun f => "Path not allowed: " ++ f.path) := by
  intro staged
  induction staged with
  | nil => rfl
  | cons f rest ih =>
      by_cases hw : isWhitelisted f.path = true
      · have hw' : (!isWhitelisted f.path) = false := by simp [hw]
        by_cases hd : (globMatch "data/**/meta.yaml" f.path
            || globMatch "data/**/meta.yml" f.path) = true
        · cases hvm : validateMetaYaml fileAt f.path with
          | mk ok msg =>
              cases ok
              · have hnp := metaMsg_not_pna fileAt f.path msg
                  (by simpa using hd) hvm
                simp only [collectErrors, hw, Bool.not_true, Bool.false_eq_true, if_false,
                  hd, if_true, hvm]
                rw [List.filter_cons]
                simp only [hnp, Bool.false_eq_true, if_false]
                rw [ih]
                rw [List.filter_cons]
                simp [hw']
              · simp only [collectErrors, hw, Bool.not_true, Bool.false_eq_true, if_false,
                  hd, if_true, hvm]
                rw [List.filter_cons]
                simp only [hw', Bool.false_eq_true, if_false]
                exact ih
        · have hd' : (globMatch "data/**/meta.yaml" f.path
              || globMatch "data/**/meta.yml" f.path) = false := by simpa using hd
          simp only [collectErrors, hw, Bool.not_true, Bool.false_eq_true, if_false,
            hd', if_true]
          rw [ih]
          congr 1
          rw [List.filter_cons]
          simp [hw']
      · have hw0 : isWhitelisted f.path = false := by simpa using hw
        have hw' : (!isWhitelisted f.path) = true := by simp [hw0]
        simp only [collectErrors, hw0, Bool.not_false, if_true]
        rw [List.filter_cons]
        have hpna : strStartsWith ("Path not allowed: " ++ f.path) "Path not allowed: " = true :=
          strStartsWith_append _ _
        simp only [hpna, if_true]
        rw [ih]
        rw [List.filter_cons]
        simp [hw']

/-- Spec-side title rule: a string value that is non-empty after
trimming. -/
def titleSpec (fs : List (String × JVal)) : Prop :=
  ∃ s, fs.lookup "title" = some (JVal.str s) ∧ jsTrim s ≠ ""

/-- Spec-side release_date shape: exactly four digits, a dash, two
digits, a dash, two digits — no calendar validity. -/
def dateShapeSpec (s : String) : Prop :=
  ∃ a b c d e f g h : Char, s.toList = [a, b, c, d, '-', e, f, '-', g, h] ∧
    a.isDigit = true ∧ b.isDigit = true ∧ c.isDigit = true ∧ d.isDigit = true ∧
    e.isDigit = true ∧ f.isDigit = true ∧ g.isDigit = true ∧ h.isDigit = true

/-- Spec-side release_date rule. -/
def dateSpec (fs : List (String × JVal)) : Prop :=
  ∃ s, fs.lookup "release_date" = some (JVal.str s) ∧ dateShapeSpec s

/-- Spec-side genre rule: an array value whose elements are all strings,
the empty array included. -/
def genreSpec (fs : List (String × JVal)) : Prop :=
  ∃ xs, fs.lookup "genre" = some (JVal.arr xs) ∧ ∀ v ∈ xs, ∃ t, v = JVal.str t

/-- The title test of the code agrees with the spec-side rule. -/
theorem titleCheck_iff (fs : List (String × JVal)) :
    titleCheck fs = true ↔ titleSpec fs := by
  unfold titleCheck titleSpec
  cases h : fs.lookup "title" with
  | none => simp
  | some v => cases v <;> simp

/-- The release_date regex of the code agrees with the spec-side shape. -/
theorem dateMatch_iff (s : String) : dateMatch s = true ↔ dateShapeSpec s := by
  unfold dateMatch dateShapeSpec
  rcases hl : s.toList with _ | ⟨a, _ | ⟨b, _ | ⟨c, _ | ⟨d, _ | ⟨e, _ | ⟨f, _ | ⟨g,
    _ | ⟨h, _ | ⟨i, _ | ⟨j, _ | ⟨k, rest⟩⟩⟩⟩⟩⟩⟩⟩⟩⟩⟩ <;> simp_all
  constructor
  · intro hb
    exact ⟨a, b, c, d, f, g, i, j, by tauto⟩
  · rintro ⟨a1, b1, c1, d1, e1, f1, g1, h1,
      ⟨rfl, rfl, rfl, rfl, rfl, rfl, rfl, rfl, rfl, rfl⟩, hds⟩
    tauto

/-- The genre test of the code agrees with the spec-side rule. -/
theorem genreCheck_iff (fs : List (String × JVal)) :
    genreCheck fs = true ↔ genreSpec fs := by
  unfold genreCheck genreSpec
  cases h : fs.lookup "genre" with
  | none => simp
  | some v =>
      cases v with
      | arr xs =>
          simp [List.all_eq_true]
          constructor
          · intro hall
            intro x hx
            have := hall x hx
            cases x <;> simp_all [isStrVal]
          · intro hall x hx
            obtain ⟨t, ht⟩ := hall x hx
            subst ht
            rfl
      | str s => simp
      | num n => simp
      | bool b => simp
      | null => simp
      | obj fs2 => simp

/-- C1: signature rescue exists only at receive time.  At receive time, a
failed verdict together with a verifying commit signature leads to accept
and an index write; with a failing signature the run is rejected with exit
code 1 and no index write, and — whenever the invocation actually reaches
validation, i.e. the changeset does not trip the mandatory hook-path
signature exit first — the printed message is the verdict message.  The
verdict message is the message carried by the verdict whenever one is
present and non-empty.  At local-commit time a failed verdict always
rejects immediately with the verdict message, and the pre-commit hook
performs no signature verification and no index write on any path. -/
theorem signature_rescue_only_at_receive
    (changes : List ChangeEntry) (sigOk : Bool) (verdict : Verdict)
    (hfail : verdict.ok = false) :
    (sigOk = true →
      (preReceiveMain changes sigOk verdict).1 = Outcome.accept ∧
      Event.indexWrite ∈ (preReceiveMain changes sigOk verdict).2) ∧
    (sigOk = false →
      (∃ m, (preReceiveMain changes sigOk verdict).1 = Outcome.reject 1 m) ∧
      Event.indexWrite ∉ (preReceiveMain changes sigOk verdict).2 ∧
      (hooksChanged changes = false →
        (preReceiveMain changes sigOk verdict).1 = Outcome.reject 1 (verdictMsg verdict))) ∧
    (∀ m, verdict.message = some m → m ≠ "" → verdictMsg verdict = m) ∧
    preCommitMain verdict = (Outcome.reject 1 (verdictMsg verdict), []) := by
  refine ⟨?_, ?_, ?_, ?_⟩
  · intro hs
    subst hs
    unfold preReceiveMain requireSignedIfChangingHooks
    cases hc : hooksChanged changes <;> simp [hfail]
  · intro hs
    subst hs
    unfold preReceiveMain requireSignedIfChangingHooks
    cases hc : hooksChanged changes <;> simp [hfail]
  · intro m hm hne
    unfold verdictMsg jsOr
    rw [hm]
    simp [hne]
  · unfold preCommitMain
    simp [hfail]

/-- Witness for C1 at a concrete failed verdict: the receive-time hook
rescues a signed commit, and the commit-time hook rejects with the
verdict message and produces no effect. -/
theorem signature_rescue_only_at_receive_witness :
    (preReceiveMain [⟨'M', "data/x/meta.yaml"⟩] true ⟨false, some "bad"⟩).1 = Outcome.accept ∧
    preCommitMain ⟨false, some "bad"⟩ = (Outcome.reject 1 "bad", []) := by
  have h := signature_rescue_only_at_receive [⟨'M', "data/x/meta.yaml"⟩] true
    ⟨false, some "bad"⟩ rfl
  refine ⟨(h.1 rfl).1, ?_⟩
  have hmsg := h.2.2.1 "bad" rfl (by decide)
  rw [← hmsg]
  exact h.2.2.2

/-- C2: at receive time, a changeset touching a hook-script path is never
accepted without a verifying commit signature: for every verdict, even a
passing one, the run exits with code 1 and the hook-script message right
after the single signature check, before validation and the index write. -/
theorem hook_change_requires_signature
    (changes : List ChangeEntry) (sigOk : Bool) (verdict : Verdict)
    (hhook : hooksChanged changes = true) (hsig : sigOk = false) :
    preReceiveMain changes sigOk verdict = (Outcome.reject 1 hookScriptMsg, [Event.sigCheck]) := by
  subst hsig
  unfold preReceiveMain requireSignedIfChangingHooks
  simp [hhook]

/-- Witness for C2: an unsigned changeset touching the pre-receive hook
script is rejected even though the verdict passed. -/
theorem hook_change_requires_signature_witness :
    preReceiveMain [⟨'M', ".relay/pre-receive.mjs"⟩] false ⟨true, none⟩
      = (Outcome.reject 1 hookScriptMsg, [Event.sigCheck]) :=
  hook_change_requires_signature [⟨'M', ".relay/pre-receive.mjs"⟩] false ⟨true, none⟩
    (by decide) rfl

/-- C5 counterexample: compiling the untrusted program (new vm.Script)
happens before the try block, so a program that fails to compile — a
syntax error in validation.mjs — makes the sandbox call itself throw: no
verdict, no marker, the raw error propagates to the caller. -/
theorem sandbox_compile_error_uncaught_cex :
    runValidationSandbox true
      (Except.error "SyntaxError: Unexpected end of input")
      (Except.ok ⟨none, none⟩)
      = Except.error "SyntaxError: Unexpected end of input" := rfl

/-- C5 amended: error containment of the validation sandbox covers the
try block only.  Once the program compiled, an exception while executing
it in the vm context (including the timeout abort), an exception inside
the validate call, and the error raised for a Promise-returning validate
all yield a caught failed verdict whose message starts with the fixed
marker; an exception while compiling the program, by contrast, is not
caught and propagates out of the sandbox call unchanged. -/
theorem sandbox_exec_errors_contained (e ce : String) (sy : ScriptYield)
    (run : Except String ScriptYield) :
    (runValidationSandbox true (Except.ok ()) (Except.error e)
        = Except.ok { ok := false, message := some ("validation.mjs error: " ++ e) } ∧
      strStartsWith ("validation.mjs error: " ++ e) "validation.mjs error: " = true) ∧
    (∀ e', sy.validateCall = some (Except.error e') →
      runValidationSandbox true (Except.ok ()) (Except.ok sy)
        = Except.ok { ok := false, message := some ("validation.mjs error: " ++ e') } ∧
      strStartsWith ("validation.mjs error: " ++ e') "validation.mjs error: " = true) ∧
    (sy.validateCall = some (Except.ok ValidateRet.promise) →
      runValidationSandbox true (Except.ok ()) (Except.ok sy)
        = Except.ok
            { ok := false
              message := some
                "validation.mjs error: validation.mjs returned a Promise; async not supported" } ∧
      strStartsWith "validation.mjs error: validation.mjs returned a Promise; async not supported"
        "validation.mjs error: " = true) ∧
    runValidationSandbox true (Except.error ce) run = Except.error ce := by
  refine ⟨⟨rfl, strStartsWith_append "validation.mjs error: " e⟩, ?_, ?_, rfl⟩
  · intro e' hc
    rcases sy with ⟨vc, pc⟩
    have hc' : vc = some (Except.error e') := hc
    subst hc'
    exact ⟨rfl, strStartsWith_append "validation.mjs error: " e'⟩
  · intro hc
    rcases sy with ⟨vc, pc⟩
    have hc' : vc = some (Except.ok ValidateRet.promise) := hc
    subst hc'
    refine ⟨rfl, ?_⟩
    have h := strStartsWith_append "validation.mjs error: "
      "validation.mjs returned a Promise; async not supported"
    simpa using h

/-- Witness for C5 amended at concrete failing scripts: the timeout abort
and the Promise return both produce caught marked verdicts. -/
theorem sandbox_exec_errors_contained_witness :
    runValidationSandbox true (Except.ok ())
      (Except.error "Script execution timed out after 2000ms")
      = Except.ok
          { ok := false
            message := some
              ("validation.mjs error: " ++ "Script execution timed out after 2000ms") } ∧
    runValidationSandbox true (Except.ok ())
      (Except.ok ⟨some (Except.ok ValidateRet.promise), none⟩)
      = Except.ok
          { ok := false
            message := some
              "validation.mjs error: validation.mjs returned a Promise; async not supported" } := by
  have h1 := sandbox_exec_errors_contained "Script execution timed out after 2000ms" "x"
    ⟨some (Except.ok ValidateRet.promise), none⟩ (Except.ok ⟨none, none⟩)
  exact ⟨h1.1.1, (h1.2.2.1 rfl).1⟩

/-- One step of the one-star wildcard on a non-slash head. -/
theorem tokMatch_ns_cons (x : Char) (xs : List Char) (hx : (x != '/') = true) :
    tokMatch [Tok.nonSlashStar] (x :: xs) = tokMatch [Tok.nonSlashStar] xs := by
  show (starSuffixes (fun c => c != '/') (x :: xs)).any (fun s => tokMatch [] s)
      = (starSuffixes (fun c => c != '/') xs).any (fun s => tokMatch [] s)
  rw [starSuffixes, hx]
  simp [tokMatch]

/-- The one-star wildcard fails on a slash head. -/
theorem tokMatch_ns_cons_slash (xs : List Char) :
    tokMatch [Tok.nonSlashStar] ('/' :: xs) = false := by
  show (starSuffixes (fun c => c != '/') ('/' :: xs)).any (fun s => tokMatch [] s) = false
  simp [starSuffixes, tokMatch]

/-- A single one-star wildcard matches exactly the slash-free strings. -/
theorem tokMatch_nonSlashStar_iff (l : List Char) :
    tokMatch [Tok.nonSlashStar] l = true ↔ ∀ c ∈ l, c ≠ '/' := by
  induction l with
  | nil => simp [tokMatch, starSuffixes]
  | cons x xs ih =>
      by_cases hx : x = '/'
      · subst hx
        rw [tokMatch_ns_cons_slash]
        simp only [Bool.false_eq_true, false_iff]
        intro hall
        exact (hall '/' (List.mem_cons_self _ _)) rfl
      · have hx' : (x != '/') = true := by simp [hx]
        rw [tokMatch_ns_cons x xs hx', ih]
        constructor
        · intro hall c hc
          rcases List.mem_cons.mp hc with rfl | hc'
          · exact hx
          · exact hall c hc'
        · intro hall c hc
          exact hall c (List.mem_cons_of_mem x hc)

/-- Matching a literal token consumes one equal character. -/
theorem tokMatch_lit_cons (c : Char) (ts : List Tok) (cs : List Char) :
    tokMatch (Tok.lit c :: ts) (c :: cs) = tokMatch ts cs := by
  show (c == c && tokMatch ts cs) = tokMatch ts cs
  simp

/-- The two-star wildcard may consume nothing. -/
theorem tokMatch_anyStar_id (ts : List Tok) (cs : List Char)
    (h : tokMatch ts cs = true) : tokMatch (Tok.anyStar :: ts) cs = true := by
  show (starSuffixes (fun c => !isLineTerm c) cs).any (fun s => tokMatch ts s) = true
  cases cs with
  | nil => simpa [starSuffixes] using h
  | cons x xs =>
      rw [starSuffixes]
      simp only [List.any_cons, Bool.or_eq_true]
      exact Or.inl h

/-- The two-star wildcard may consume one more non-line-terminator
character. -/
theorem tokMatch_anyStar_skip (ts : List Tok) (x : Char) (xs : List Char)
    (hx : isLineTerm x = false) (h : tokMatch (Tok.anyStar :: ts) xs = true) :
    tokMatch (Tok.anyStar :: ts) (x :: xs) = true := by
  show (starSuffixes (fun c => !isLineTerm c) (x :: xs)).any (fun s => tokMatch ts s) = true
  simp only [starSuffixes, hx, Bool.not_false, if_true, List.any_cons, Bool.or_eq_true]
  exact Or.inr h

/-- The two-star wildcard consumes any line-terminator-free run. -/
theorem tokMatch_anyStar_append (ts : List Tok) (s rest : List Char)
    (hs : ∀ c ∈ s, isLineTerm c = false) (h : tokMatch ts rest = true) :
    tokMatch (Tok.anyStar :: ts) (s ++ rest) = true := by
  induction s with
  | nil => simpa using tokMatch_anyStar_id ts rest h
  | cons x s2 ih =>
      exact tokMatch_anyStar_skip ts x (s2 ++ rest)
        (hs x (List.mem_cons_self x s2))
        (ih (fun c hc => hs c (List.mem_cons_of_mem x hc)))

/-- Between its surrounding slashes, the two-star wildcard accepts any
run of characters free of line terminators, the empty run included. -/
theorem double_star_bridges_segments (mid : String)
    (hmid : ∀ c ∈ mid.toList, isLineTerm c = false) :
    globMatch "data/**/meta.yaml" ("data/" ++ mid ++ "/meta.yaml") = true := by
  unfold globMatch
  have htoks : globTokens "data/**/meta.yaml".toList
      = Tok.lit 'd' :: Tok.lit 'a' :: Tok.lit 't' :: Tok.lit 'a' :: Tok.lit '/' ::
        Tok.anyStar :: Tok.lit '/' :: Tok.lit 'm' :: Tok.lit 'e' :: Tok.lit 't' ::
        Tok.lit 'a' :: Tok.lit '.' :: Tok.lit 'y' :: Tok.lit 'a' :: Tok.lit 'm' ::
        Tok.lit 'l' :: [] := by decide
  have hpath : ("data/" ++ mid ++ "/meta.yaml").toList
      = 'd' :: 'a' :: 't' :: 'a' :: '/' ::
        (mid.toList ++ ('/' :: 'm' :: 'e' :: 't' :: 'a' :: '.' :: 'y' :: 'a' :: 'm' ::
          'l' :: [])) := by
    show ("data/" ++ mid ++ "/meta.yaml").data
        = 'd' :: 'a' :: 't' :: 'a' :: '/' ::
          (mid.data ++ ('/' :: 'm' :: 'e' :: 't' :: 'a' :: '.' :: 'y' :: 'a' :: 'm' ::
            'l' :: []))
    rw [String.data_append, String.data_append, List.append_assoc]
    rfl
  rw [htoks, hpath]
  rw [tokMatch_lit_cons, tokMatch_lit_cons, tokMatch_lit_cons, tokMatch_lit_cons,
    tokMatch_lit_cons]
  exact tokMatch_anyStar_append _ mid.toList _ hmid (by decide)

/-- The release_date test of the code agrees with the spec-side rule. -/
theorem dateCheck_iff (fs : List (String × JVal)) :
    dateCheck fs = true ↔ dateSpec fs := by
  unfold dateCheck dateSpec
  cases h : fs.lookup "release_date" with
  | none => simp
  | some v => cases v <;> simp [dateMatch_iff]

/-- C8: the reference schema check accepts a parsed document exactly when
its title is a string non-empty after trimming, its release_date is a
string of shape four digits, dash, two digits, dash, two digits (calendar
validity is not checked), and its genre is an array of strings (possibly
empty); on any failure the verdict message mentions the document path. -/
theorem meta_schema_check_iff (fs : List (String × JVal)) (p : String) :
    ((validateMetaYaml (fun _ => FileVal.doc fs) p).ok = true ↔
      titleSpec fs ∧ dateSpec fs ∧ genreSpec fs) ∧
    ((validateMetaYaml (fun _ => FileVal.doc fs) p).ok = false →
      ∃ m l r, (validateMetaYaml (fun _ => FileVal.doc fs) p).message = some m ∧
        m = l ++ p ++ r) := by
  have hred : validateMetaYaml (fun _ => FileVal.doc fs) p
      = (if (!titleCheck fs) = true then
           ({ ok := false, message := some (p ++ ": missing or invalid title (string)") } : Verdict)
         else if (!dateCheck fs) = true then
           { ok := false, message := some (p ++ ": invalid release_date (YYYY-MM-DD)") }
         else if (!genreCheck fs) = true then
           { ok := false, message := some (p ++ ": invalid genre (array of strings)") }
         else { ok := true, message := none }) := rfl
  rw [hred]
  by_cases ht : titleCheck fs = true
  · by_cases hd : dateCheck fs = true
    · by_cases hg : genreCheck fs = true
      · simp only [ht, hd, hg, Bool.not_true, Bool.false_eq_true, if_false]
        constructor
        · constructor
          · intro _
            exact ⟨(titleCheck_iff fs).mp ht, (dateCheck_iff fs).mp hd, (genreCheck_iff fs).mp hg⟩
          · intro _
            trivial
        · intro hf
          exact absurd hf (by decide)
      · have hg' : genreCheck fs = false := by simpa using hg
        simp only [ht, hd, hg', Bool.not_true, Bool.not_false, Bool.false_eq_true,
          if_false, if_true]
        constructor
        · constructor
          · intro hf
            exact absurd hf (by decide)
          · rintro ⟨-, -, hgs⟩
            exact absurd ((genreCheck_iff fs).mpr hgs) (by simp [hg'])
        · intro _
          exact ⟨p ++ ": invalid genre (array of strings)", "",
            ": invalid genre (array of strings)", rfl, by rw [String.empty_append]⟩
    · have hd' : dateCheck fs = false := by simpa using hd
      simp only [ht, hd', Bool.not_true, Bool.not_false, Bool.false_eq_true,
        if_false, if_true]
      constructor
      · constructor
        · intro hf
          exact absurd hf (by decide)
        · rintro ⟨-, hds, -⟩
          exact absurd ((dateCheck_iff fs).mpr hds) (by simp [hd'])
      · intro _
        exact ⟨p ++ ": invalid release_date (YYYY-MM-DD)", "",
          ": invalid release_date (YYYY-MM-DD)", rfl, by rw [String.empty_append]⟩
  · have ht' : titleCheck fs = false := by simpa using ht
    simp only [ht', Bool.not_false, if_true]
    constructor
    · constructor
      · intro hf
        exact absurd hf (by decide)
      · rintro ⟨hts, -, -⟩
        exact absurd ((titleCheck_iff fs).mpr hts) (by simp [ht'])
    · intro _
      exact ⟨p ++ ": missing or invalid title (string)", "",
        ": missing or invalid title (string)", rfl, by rw [String.empty_append]⟩

/-- Witness for C8: the end-to-end sample document passes the schema
check, while the empty document fails with a message carrying the path;
a calendar-invalid date matching the shape passes, while a slashed date
fails. -/
theorem meta_schema_check_iff_witness :
    (validateMetaYaml (fun _ => FileVal.doc
      [("title", JVal.str "Test Movie"), ("release_date", JVal.str "2026-01-06"),
       ("genre", JVal.arr [JVal.str "Action"])]) "data/2026/test-movie/meta.yaml").ok = true ∧
    (∃ m l r, (validateMetaYaml (fun _ => FileVal.doc []) "data/m/meta.yaml").message = some m ∧
      m = l ++ "data/m/meta.yaml" ++ r) ∧
    dateMatch "2024-02-30" = true ∧ dateMatch "2024/01/15" = false ∧
    dateMatch "15-01-2024" = false ∧ dateMatch "2024-1-15" = false := by
  refine ⟨?_, ?_, by decide, by decide, by decide, by decide⟩
  · exact (meta_schema_check_iff
      [("title", JVal.str "Test Movie"), ("release_date", JVal.str "2026-01-06"),
       ("genre", JVal.arr [JVal.str "Action"])] "data/2026/test-movie/meta.yaml").1.mpr
      ⟨⟨"Test Movie", rfl, by decide⟩,
       ⟨"2026-01-06", rfl, (dateMatch_iff "2026-01-06").mp (by decide)⟩,
       ⟨[JVal.str "Action"], rfl, by
          intro v hv
          rcases List.mem_singleton.mp hv with rfl
          exact ⟨"Action", rfl⟩⟩⟩
  · exact (meta_schema_check_iff [] "data/m/meta.yaml").2 rfl

/-- C3: evaluating upsertIndex at the failing input.  A changeset that
deletes one metadata directory and then upserts another breaks the
at-most-one-entry-per-key invariant: the splice is not propagated to the
position map, so the later upsert writes past the shifted array and
duplicates its key.  A delete following a delete similarly misses: the
stale position is out of range and removes nothing. -/
theorem upsert_delete_desync_breaks_uniqueness :
    keysOf [Cell.entry ⟨"main", "data/a", "T0", "T0", []⟩,
            Cell.entry ⟨"main", "data/b", "T0", "T0", []⟩]
      = ["main::data/a", "main::data/b"] ∧
    keysOf (upsertFromItems "main" "T1"
        (fun p => if p == "data/b/meta.yaml" then some ⟨none, []⟩ else none)
        [Cell.entry ⟨"main", "data/a", "T0", "T0", []⟩,
         Cell.entry ⟨"main", "data/b", "T0", "T0", []⟩]
        [⟨'D', "data/a/meta.yaml"⟩, ⟨'M', "data/b/meta.yaml"⟩])
      = ["main::data/b", "main::data/b"] ∧
    keysOf (upsertFromItems "main" "T1" (fun _ => none)
        [Cell.entry ⟨"main", "data/a", "T0", "T0", []⟩,
         Cell.entry ⟨"main", "data/b", "T0", "T0", []⟩]
        [⟨'D', "data/a/meta.yaml"⟩, ⟨'D', "data/b/meta.yaml"⟩]) = ["main::data/b"] :=
  ⟨by decide, by decide, by decide⟩

/-- C4 counterexample: an upsert over an existing entry whose parsed
document carries no _created_at does not preserve the stored entry's
_created_at; it stamps the current time instead. -/
theorem created_at_not_preserved_cex :
    upsertFromItems "main" "2025-06-01T00:00:00.000Z" (fun _ => some ⟨none, []⟩)
      [Cell.entry ⟨"main", "data/m", "2020-01-01T00:00:00.000Z",
        "2020-01-01T00:00:00.000Z", []⟩]
      [⟨'M', "data/m/meta.yaml"⟩]
      = [Cell.entry ⟨"main", "data/m", "2025-06-01T00:00:00.000Z",
          "2025-06-01T00:00:00.000Z", []⟩] ∧
    (("2025-06-01T00:00:00.000Z" : String) == "2020-01-01T00:00:00.000Z") = false :=
  ⟨rfl, by decide⟩

/-- C4 amended: on an upsert the resulting entry takes _created_at from
the parsed document when the document itself contains that field and
stamps the current time otherwise — the prior entry's _created_at is
never consulted — while _updated_at is always the current time; this
holds identically whether or not a prior entry exists for the key. -/
theorem created_at_from_document_or_fresh
    (branch now p : String) (pm : ParsedMeta) (prior : Item)
    (hmeta : isMetaPath p = true)
    (hb : prior.branch = branch) (hm2 : prior.metaDir = posixDirname p) :
    (mkDoc branch (posixDirname p) now pm).createdAt = pm.createdAt.getD now ∧
    (mkDoc branch (posixDirname p) now pm).updatedAt = now ∧
    upsertFromItems branch now (fun _ => some pm) [Cell.entry prior] [⟨'M', p⟩]
      = [Cell.entry (mkDoc branch (posixDirname p) now pm)] ∧
    upsertFromItems branch now (fun _ => some pm) [] [⟨'M', p⟩]
      = [Cell.entry (mkDoc branch (posixDirname p) now pm)] := by
  refine ⟨rfl, rfl, ?_, ?_⟩
  · rcases prior with ⟨pb, pmd, pc, pu, pp⟩
    have hb' : pb = branch := hb
    have hm' : pmd = posixDirname p := hm2
    subst hb'
    subst hm'
    unfold upsertFromItems buildPos applyChange
    simp [hmeta, posGet, posSet, itemKey, setCell, List.lookup]
  · unfold upsertFromItems buildPos applyChange
    simp [hmeta, posGet, posSet, setCell]

/-- Witness for C4 amended at a concrete path and document. -/
theorem created_at_from_document_or_fresh_witness :
    upsertFromItems "main" "T" (fun _ => some ⟨none, []⟩)
      [Cell.entry ⟨"main", "data/m", "C0", "U0", []⟩] [⟨'M', "data/m/meta.yaml"⟩]
      = [Cell.entry (mkDoc "main" (posixDirname "data/m/meta.yaml") "T" ⟨none, []⟩)] :=
  (created_at_from_document_or_fresh "main" "T" "data/m/meta.yaml" ⟨none, []⟩
    ⟨"main", "data/m", "C0", "U0", []⟩ (by decide) rfl (by decide)).2.2.1

/-- C9 counterexample: a path whose final segment is not one of the two
metadata filenames, but merely ends with one of them as a string suffix,
is treated as metadata and indexed (under directory dot). -/
theorem meta_suffix_match_cex :
    isMetaPath "xmeta.yaml" = true ∧
    (lastSegment "xmeta.yaml" == "meta.yaml") = false ∧
    (lastSegment "xmeta.yaml" == "meta.yml") = false ∧
    upsertFromItems "main" "T" (fun _ => some ⟨none, []⟩) [] [⟨'M', "xmeta.yaml"⟩]
      = [Cell.entry ⟨"main", ".", "T", "T", []⟩] :=
  ⟨by decide, by decide, by decide, rfl⟩

/-- Every path ends with its own final segment. -/
theorem strEndsWith_lastSegment (p : String) : strEndsWith p (lastSegment p) = true := by
  unfold strEndsWith lastSegment
  have hmk : (String.mk ((p.toList.reverse.takeWhile (fun c => c != '/')).reverse)).toList
      = (p.toList.reverse.takeWhile (fun c => c != '/')).reverse := rfl
  rw [hmk, List.reverse_reverse]
  exact listLeads_takeWhile _ _

/-- C9 amended: the projector treats a change as metadata exactly when
its path ends with the string meta.yaml or meta.yml — a suffix test, not
a final-segment test.  Every path whose final segment is one of the two
filenames qualifies, but so do paths like xmeta.yaml. -/
theorem meta_recognition_suffix_semantics :
    (∀ p : String, isMetaPath p
      = (strEndsWith p "meta.yaml" || strEndsWith p "meta.yml")) ∧
    (∀ p : String,
      lastSegment p = "meta.yaml" ∨ lastSegment p = "meta.yml" → isMetaPath p = true) := by
  constructor
  · intro p
    unfold isMetaPath
    cases h1 : strEndsWith p "meta.yaml" <;> cases h2 : strEndsWith p "meta.yml" <;> simp
    · have e1 : strEndsWith p "/meta.yaml" = false := by
        cases he : strEndsWith p "/meta.yaml"
        · rfl
        · have htr := listLeads_trans
            (show listLeads "meta.yaml".toList.reverse "/meta.yaml".toList.reverse = true
              by decide) he
          have h1' : listLeads "meta.yaml".toList.reverse p.toList.reverse = false := h1
          rw [htr] at h1'
          exact absurd h1' (by decide)
      have e2 : strEndsWith p "/meta.yml" = false := by
        cases he : strEndsWith p "/meta.yml"
        · rfl
        · have htr := listLeads_trans
            (show listLeads "meta.yml".toList.reverse "/meta.yml".toList.reverse = true
              by decide) he
          have h2' : listLeads "meta.yml".toList.reverse p.toList.reverse = false := h2
          rw [htr] at h2'
          exact absurd h2' (by decide)
      exact ⟨e1, e2⟩
  · intro p hseg
    unfold isMetaPath
    rcases hseg with hseg | hseg
    · have := strEndsWith_lastSegment p
      rw [hseg] at this
      simp [this]
    · have := strEndsWith_lastSegment p
      rw [hseg] at this
      simp [this]

/-- Witness for C9 amended at a nested metadata path. -/
theorem meta_recognition_suffix_semantics_witness : isMetaPath "a/b/meta.yml" = true :=
  meta_recognition_suffix_semantics.2 "a/b/meta.yml" (Or.inr (by decide))

/-- C10: a corrupt persisted index (unparsable JSON, or an items field
that is not an array) is silently replaced by the empty collection: the
run does not fail, every previously stored entry is discarded, and every
entry of the rewritten array is derived from a non-delete metadata change
of the current changeset. -/
theorem corrupt_index_reset_to_empty :
    loadedCells IndexFile.corrupt = [] ∧
    loadedCells (IndexFile.wellFormed none) = [] ∧
    (∀ (branch now : String) (fileAt : String → Option ParsedMeta)
        (changes : List ChangeEntry) (it : Item),
      Cell.entry it ∈ upsertIndexItems branch now fileAt IndexFile.corrupt changes →
      ∃ ch ∈ changes, isMetaPath ch.path = true ∧ ch.status ≠ 'D' ∧
        ∃ pm, fileAt ch.path = some pm ∧ it = mkDoc branch (posixDirname ch.path) now pm) := by
  refine ⟨rfl, rfl, ?_⟩
  intro branch now fileAt changes it h
  have h2 := mem_entry_fold changes { items := [], pos := buildPos [] } it h
  rcases h2 with h3 | h4
  · simp at h3
  · exact h4

/-- Witness for C10: a single modified metadata file over a corrupt index
yields one entry, provably derived from that change. -/
theorem corrupt_index_reset_to_empty_witness :
    ∃ ch ∈ ([⟨'M', "data/m/meta.yaml"⟩] : List ChangeEntry),
      isMetaPath ch.path = true ∧ ch.status ≠ 'D' ∧
      ∃ pm, (fun _ : String => some (⟨some "C", []⟩ : ParsedMeta)) ch.path = some pm ∧
        (⟨"main", "data/m", "C", "T", []⟩ : Item)
          = mkDoc "main" (posixDirname ch.path) "T" pm := by
  apply corrupt_index_reset_to_empty.2.2 "main" "T" (fun _ => some ⟨some "C", []⟩)
    [⟨'M', "data/m/meta.yaml"⟩] ⟨"main", "data/m", "C", "T", []⟩
  have hres : upsertIndexItems "main" "T" (fun _ => some ⟨some "C", []⟩) IndexFile.corrupt
      [⟨'M', "data/m/meta.yaml"⟩] = [Cell.entry ⟨"main", "data/m", "C", "T", []⟩] := rfl
  rw [hres]
  exact List.mem_singleton.mpr rfl
